import Mathlib

/-!
Shallow embedding of the demand-series construction and forecasting pipeline of
`stock_qty_forecast/wizard/open_stock_series.py` (class `open_stock_series`),
together with proofs of the specification's claims about it.

Modelling conventions:
* Datetimes are modelled at the granularity that matters to the pipeline: a
  `DateT` is a pair of the index of the containing interval bucket on the
  regular grid induced by the selected interval (the image of `DATE_TRUNC`)
  and the offset inside that bucket.  Chronological order is the
  lexicographic order on those pairs.
* Quantities are modelled as exact rationals.
* The SQL extractor's output (already truncated, grouped, summed and ordered
  by `date_gr`) is the pipeline's input: a list of `(bucket, qty)` pairs.
* The statsmodels model object produced by each method's `fit()` call is
  abstracted as `Option (Nat → ℚ)`: `none` models an exception raised by
  `fit`/`predict` (caught by the method's `except` clause), `some f` a
  fitted model whose `predict(start, end)` returns one value `f p` for every
  integer position `p` with `start ≤ p ≤ end`, indexed by the dates that
  continue the resampled series' grid.  The warning written by the `except`
  branch is a log line, not data, and is not modelled.
-/

set_option linter.unusedVariables false

namespace StockSeries

/-- A datetime, relative to the regular bucket grid of the selected interval:
`bucket` is the index of the containing bucket (the image of `DATE_TRUNC`),
`off` the day offset inside the bucket; `off = 0` exactly for truncated dates,
i.e. bucket starts. -/
structure DateT where
  bucket : Nat
  off : Nat
deriving DecidableEq

/-- Chronological strict order on datetimes (lexicographic on bucket, offset). -/
def DateT.lt (a b : DateT) : Prop :=
  a.bucket < b.bucket ∨ (a.bucket = b.bucket ∧ a.off < b.off)

instance (a b : DateT) : Decidable (DateT.lt a b) :=
  inferInstanceAs (Decidable (a.bucket < b.bucket ∨ (a.bucket = b.bucket ∧ a.off < b.off)))

/-- The six forecast methods selectable through the wizard's `forecast_method`
field; the constructors correspond to the source's method names
`_ar_method`, `_ma_method` (ARDL), `_arima_method`, `_sarima_method`,
`_hwes_method`, `_ses_method`. -/
inductive Method where
  | ar | ma | arima | sarima | hwes | ses
deriving DecidableEq

/-- The wizard fields that the `_calculate_data` pipeline reads.  The numeric
hyperparameters (`lags`, the ARIMA orders, `seasons`) only parametrise the
external statsmodels fit, which is abstracted by the fit outcome, so they are
not carried here. -/
structure Wizard where
  date_start : Option DateT
  date_end : Option DateT
  predicted_periods : Nat
  forecast_method : Method

/-- One record of the result of `_calculate_data`.  The Python records are
dicts: historical records carry only the keys `date_datetime` and `quantity`,
forecast records additionally `"forecast": True`.  The `forecast` field models
the optional key: `none` means the key is absent. -/
structure DemandRecord where
  date_datetime : Nat
  quantity : ℚ
  forecast : Option Bool
deriving DecidableEq

/-- The truthiness test `move.get("forecast")` used by the consumers of the
records: a missing key is falsy, a present key has its own truthiness. -/
def isForecastTruthy (r : DemandRecord) : Bool :=
  match r.forecast with
  | some b => b
  | none => false

/-- Contract of statsmodels `model_fit.predict(start, stop)` for a fitted
model `f`: one predicted value per integer position from `start` to `stop`
inclusive. -/
def predictRange (f : Nat → ℚ) (start stop : Nat) : List (Nat × ℚ) :=
  (List.range (stop + 1 - start)).map (fun i => (start + i, f (start + i)))

/-- `_ar_method`: fit an autoregressive model and
`predict(start=len(data), end=len(data)+predicted_periods-1)`; an exception is
caught and converted to the sentinel (`prediction = False`, here `none`). -/
def _ar_method (fit : Option (Nat → ℚ)) (predicted_periods : Nat)
    (data : List (Nat × ℚ)) : Option (List (Nat × ℚ)) :=
  match fit with
  | some model_fit =>
      some (predictRange model_fit data.length (data.length + predicted_periods - 1))
  | none => none

/-- `_ma_method` (ARDL): same predict window and failure handling as
`_ar_method`. -/
def _ma_method (fit : Option (Nat → ℚ)) (predicted_periods : Nat)
    (data : List (Nat × ℚ)) : Option (List (Nat × ℚ)) :=
  match fit with
  | some model_fit =>
      some (predictRange model_fit data.length (data.length + predicted_periods - 1))
  | none => none

/-- `_arima_method`: same predict window (with `typ='levels'`) and failure
handling as `_ar_method`. -/
def _arima_method (fit : Option (Nat → ℚ)) (predicted_periods : Nat)
    (data : List (Nat × ℚ)) : Option (List (Nat × ℚ)) :=
  match fit with
  | some model_fit =>
      some (predictRange model_fit data.length (data.length + predicted_periods - 1))
  | none => none

/-- `_sarima_method`: same predict window and failure handling as
`_ar_method`. -/
def _sarima_method (fit : Option (Nat → ℚ)) (predicted_periods : Nat)
    (data : List (Nat × ℚ)) : Option (List (Nat × ℚ)) :=
  match fit with
  | some model_fit =>
      some (predictRange model_fit data.length (data.length + predicted_periods - 1))
  | none => none

/-- `_hwes_method` (Holt-Winters exponential smoothing): exactly the same
predict window `start=len(data), end=len(data)+predicted_periods-1` as the
other methods, and the same failure handling. -/
def _hwes_method (fit : Option (Nat → ℚ)) (predicted_periods : Nat)
    (data : List (Nat × ℚ)) : Option (List (Nat × ℚ)) :=
  match fit with
  | some model_fit =>
      some (predictRange model_fit data.length (data.length + predicted_periods - 1))
  | none => none

/-- `_ses_method` (simple exponential smoothing): exactly the same predict
window as the other methods, and the same failure handling. -/
def _ses_method (fit : Option (Nat → ℚ)) (predicted_periods : Nat)
    (data : List (Nat × ℚ)) : Option (List (Nat × ℚ)) :=
  match fit with
  | some model_fit =>
      some (predictRange model_fit data.length (data.length + predicted_periods - 1))
  | none => none

/-- `method_to_call = getattr(self, self.forecast_method)`: dispatch on the
selected method name. -/
def method_to_call (m : Method) : Option (Nat → ℚ) → Nat → List (Nat × ℚ) →
    Option (List (Nat × ℚ)) :=
  match m with
  | .ar => _ar_method
  | .ma => _ma_method
  | .arima => _arima_method
  | .sarima => _sarima_method
  | .hwes => _hwes_method
  | .ses => _ses_method

/-- `_onchange_forecast_method`: the request layer pins `predicted_periods`
to 1 when HWES or SES is selected, and otherwise resets it to the configured
default. -/
def onchange_forecast_method (m : Method) (config_periods : Nat) : Nat :=
  match m with
  | .hwes => 1
  | .ses => 1
  | _ => config_periods

/-- Round-half-to-even on rationals, the rounding used by Python's built-in
`round`. -/
def roundHalfEven (x : ℚ) : ℤ :=
  if x - (⌊x⌋ : ℚ) < 1/2 then ⌊x⌋
  else if (1 : ℚ)/2 < x - (⌊x⌋ : ℚ) then ⌊x⌋ + 1
  else if ⌊x⌋ % 2 = 0 then ⌊x⌋ else ⌊x⌋ + 1

/-- Python's `round(v, 2)`: round `v` to 2 decimal places. -/
def pyRound2 (v : ℚ) : ℚ := (roundHalfEven (v * 100) : ℚ) / 100

/-- The source's forecast-quantity expression
`value > 0 and round(value, 2) or 0.0`, with Python's falsy chaining made
explicit: a non-positive value short-circuits to `0.0`, and a positive value
whose rounding is `0.0` (falsy) also yields the `or` branch `0.0`. -/
def clampRound (value : ℚ) : ℚ :=
  if 0 < value then (if pyRound2 value ≠ 0 then pyRound2 value else 0) else 0

/-- The specification's post-processing, in its own words: "every forecast
quantity must be clamped to ≥ 0.0 and rounded to 2 decimal places"; stated
for comparison with the source's `clampRound`. -/
def specClamp (value : ℚ) : ℚ :=
  if value ≤ 0 then 0 else pyRound2 value

/-- The SQL rows as dated rows: `date_gr` is a truncated date, so its offset
inside its bucket is 0. -/
def rawRows (moves : List (Nat × ℚ)) : List (DateT × ℚ) :=
  moves.map (fun m => (⟨m.1, 0⟩, m.2))

/-- The synthetic boundary row appended for `date_start`:
`if self.date_start and moves[0]["date_gr"] > date_start: moves.append(...)`. -/
def startRow (ds : Option DateT) (first : DateT) : List (DateT × ℚ) :=
  match ds with
  | some d => if DateT.lt d first then [(d, 0)] else []
  | none => []

/-- The synthetic boundary row appended for `date_end`:
`if self.date_end and moves[-1]["date_gr"] < date_end: moves.append(...)`.
Note the condition reads the *current* last row, i.e. after the possible
`date_start` append. -/
def endRow (de : Option DateT) (last : DateT) : List (DateT × ℚ) :=
  match de with
  | some d => if DateT.lt last d then [(d, 0)] else []
  | none => []

/-- Steps 2 of `_calculate_data`: the move rows after the two conditional
boundary appends.  Both synthetic rows are appended at the end of the list,
exactly as `moves.append` does; the `date_end` condition inspects `moves[-1]`,
which is the `date_start` synthetic row when one was appended. -/
def withBoundaries (ds de : Option DateT) (rows : List (DateT × ℚ)) :
    List (DateT × ℚ) :=
  match rows with
  | [] => []
  | r0 :: _ =>
      let rows1 := rows ++ startRow ds r0.1
      rows1 ++ endRow de (rows1.getLastD r0).1

/-- The buckets mentioned by a row list. -/
def bucketList (rows : List (DateT × ℚ)) : List Nat :=
  rows.map (fun r => r.1.bucket)

/-- Minimum of a bucket list (the resampler's grid start). -/
def minB : List Nat → Nat
  | [] => 0
  | b :: bs => bs.foldl min b

/-- Maximum of a bucket list (the resampler's grid end). -/
def maxB : List Nat → Nat
  | [] => 0
  | b :: bs => bs.foldl max b

/-- Total quantity contributed to bucket `b` by the rows whose date lies in
that bucket. -/
def sumAt (rows : List (DateT × ℚ)) (b : Nat) : ℚ :=
  ((rows.filter (fun r => r.1.bucket = b)).map (fun r => r.2)).sum

/-- `moves_table.resample(freq).sum().fillna(0.0)`: one row per bucket of the
regular grid from the smallest to the largest bucket mentioned by the input,
each carrying the sum of the contributions falling into it (0 where none
falls). -/
def resampleSum (rows : List (DateT × ℚ)) : List (Nat × ℚ) :=
  match rows with
  | [] => []
  | _ :: _ =>
      let lo := minB (bucketList rows)
      let hi := maxB (bucketList rows)
      (List.range (hi + 1 - lo)).map (fun i => (lo + i, sumAt rows (lo + i)))

/-- The normalized historical series (`moves_table` after `set_index`,
`resample(freq).sum().fillna(0.0)`). -/
def moves_table (w : Wizard) (raw : List (Nat × ℚ)) : List (Nat × ℚ) :=
  resampleSum (withBoundaries w.date_start w.date_end (rawRows raw))

/-- First bucket of the resampled grid; forecast position `p` (statsmodels
integer position) corresponds to the bucket `lowBucket + p`, since position 0
is the grid start and the prediction's date index continues the grid. -/
def lowBucket (w : Wizard) (raw : List (Nat × ℚ)) : Nat :=
  minB (bucketList (withBoundaries w.date_start w.date_end (rawRows raw)))

/-- `_calculate_data`: the whole pipeline from the extractor's grouped rows to
the final record list.  `fit` is the abstracted outcome of the statsmodels
fit/predict call of the selected method.  Returns `none` for the Python
`return False` (the no-data signal). -/
def _calculate_data (w : Wizard) (fit : Option (Nat → ℚ))
    (raw : List (Nat × ℚ)) : Option (List DemandRecord) :=
  match raw with
  | [] => none
  | _ :: _ =>
      let table := moves_table w raw
      let forecast := method_to_call w.forecast_method fit w.predicted_periods table
      let res_moves : List DemandRecord :=
        table.map (fun kv => ⟨kv.1, kv.2, none⟩)
      match forecast with
      | none => some res_moves
      | some fs =>
          some (res_moves ++ fs.map (fun pv =>
            ⟨lowBucket w raw + pv.1, clampRound pv.2, some true⟩))

/-- The historical part of the result of `_calculate_data` (`res_moves` before
the forecast extension): one record per normalized bucket, with no `forecast`
key. -/
def histRecords (w : Wizard) (raw : List (Nat × ℚ)) : List DemandRecord :=
  (moves_table w raw).map (fun kv => ⟨kv.1, kv.2, none⟩)

/-- The forecast part of the result of `_calculate_data` (`forecast_moves`):
empty when the selected method returned the sentinel, otherwise one
`forecast`-flagged record per predicted position, with the clamped and
rounded quantity. -/
def foreRecords (w : Wizard) (fit : Option (Nat → ℚ)) (raw : List (Nat × ℚ)) :
    List DemandRecord :=
  match method_to_call w.forecast_method fit w.predicted_periods (moves_table w raw) with
  | none => []
  | some fs => fs.map (fun pv => ⟨lowBucket w raw + pv.1, clampRound pv.2, some true⟩)

/-- Outcome of `action_calculate` as far as the claims are concerned: either
the not-enough-data notification, or the report action over the computed
records. -/
inductive CalcResult where
  | notification
  | report (moves : List DemandRecord)
deriving DecidableEq

/-- `action_calculate`: run `_calculate_data` and show the no-data
notification when the result is falsy (`False` or an empty list), otherwise
open the report on the records. -/
def action_calculate (w : Wizard) (fit : Option (Nat → ℚ))
    (raw : List (Nat × ℚ)) : CalcResult :=
  match _calculate_data w fit raw with
  | none => .notification
  | some moves => if moves = [] then .notification else .report moves

/-- A concrete fitted-model prediction function used by concrete
evaluations. -/
def constF : Nat → ℚ := fun _ => (157 : ℚ) / 100

/-- A concrete successful fit outcome used by concrete evaluations. -/
def constFit : Option (Nat → ℚ) := some constF

/-- A concrete two-point input series used by concrete evaluations. -/
def demoData : List (Nat × ℚ) := [(0, 1), (1, 2)]

/-- The spec's normalization scenario: raw buckets
`[(2024-01-01, 5), (2024-01-03, 7)]` with `interval = day`, so bucket indices
0 and 2 relative to 2024-01-01. -/
def rawScenario : List (Nat × ℚ) := [(0, 5), (2, 7)]

/-- Wizard for the normalization scenario: `date_start = 2024-01-01`,
`date_end = 2024-01-03`. -/
def wScenario : Wizard :=
  { date_start := some ⟨0, 0⟩
    date_end := some ⟨2, 0⟩
    predicted_periods := 2
    forecast_method := .ar }

/-- Wizard exercising both synthetic boundary rows: `date_start` one bucket
before the data, `date_end` strictly inside bucket 4. -/
def wBoundary : Wizard :=
  { date_start := some ⟨0, 0⟩
    date_end := some ⟨4, 1⟩
    predicted_periods := 1
    forecast_method := .ses }

/-- Raw input for the boundary scenario: a single bucket at index 2. -/
def rawBoundary : List (Nat × ℚ) := [(2, 5)]

/-- The expected record list for the normalization scenario run with the
constant fit `constFit` and 2 predicted periods. -/
def demandScenario : List DemandRecord :=
  [⟨0, 5, none⟩, ⟨1, 0, none⟩, ⟨2, 7, none⟩,
   ⟨3, 157/100, some true⟩, ⟨4, 157/100, some true⟩]

/-! ### Helper lemmas: folded minima and maxima -/

theorem foldl_min_le_init (l : List Nat) (a : Nat) : l.foldl min a ≤ a := by
  induction l generalizing a with
  | nil => simp
  | cons x xs ih =>
      simpa using le_trans (ih (min a x)) (min_le_left a x)

theorem foldl_min_le_mem (l : List Nat) (a x : Nat) (hx : x ∈ l) :
    l.foldl min a ≤ x := by
  induction l generalizing a with
  | nil => cases hx
  | cons y ys ih =>
      rcases List.mem_cons.1 hx with h | h
      · subst h
        simpa using le_trans (foldl_min_le_init ys (min a x)) (min_le_right a x)
      · simpa using ih (min a y) h

theorem le_foldl_min (l : List Nat) (a b : Nat) (ha : b ≤ a)
    (hl : ∀ x ∈ l, b ≤ x) : b ≤ l.foldl min a := by
  induction l generalizing a with
  | nil => simpa
  | cons y ys ih =>
      simpa using ih (min a y) (le_min ha (hl y (by simp)))
        (fun x hx => hl x (by simp [hx]))

theorem init_le_foldl_max (l : List Nat) (a : Nat) : a ≤ l.foldl max a := by
  induction l generalizing a with
  | nil => simp
  | cons x xs ih =>
      simpa using le_trans (le_max_left a x) (ih (max a x))

theorem mem_le_foldl_max (l : List Nat) (a x : Nat) (hx : x ∈ l) :
    x ≤ l.foldl max a := by
  induction l generalizing a with
  | nil => cases hx
  | cons y ys ih =>
      rcases List.mem_cons.1 hx with h | h
      · subst h
        simpa using le_trans (le_max_right a x) (init_le_foldl_max ys (max a x))
      · simpa using ih (max a y) h

theorem foldl_max_le (l : List Nat) (a b : Nat) (ha : a ≤ b)
    (hl : ∀ x ∈ l, x ≤ b) : l.foldl max a ≤ b := by
  induction l generalizing a with
  | nil => simpa
  | cons y ys ih =>
      simpa using ih (max a y) (max_le ha (hl y (by simp)))
        (fun x hx => hl x (by simp [hx]))

theorem minB_le_of_mem {l : List Nat} {x : Nat} (hx : x ∈ l) : minB l ≤ x := by
  cases l with
  | nil => cases hx
  | cons b bs =>
      rcases List.mem_cons.1 hx with h | h
      · subst h; exact foldl_min_le_init bs x
      · exact foldl_min_le_mem bs b x h

theorem le_minB {l : List Nat} {b : Nat} (h : ∀ x ∈ l, b ≤ x) (h0 : l ≠ []) :
    b ≤ minB l := by
  cases l with
  | nil => exact absurd rfl h0
  | cons a as =>
      exact le_foldl_min as a b (h a (by simp)) (fun x hx => h x (by simp [hx]))

theorem minB_eq {l : List Nat} {b : Nat} (hmem : b ∈ l) (hlb : ∀ x ∈ l, b ≤ x) :
    minB l = b :=
  le_antisymm (minB_le_of_mem hmem)
    (le_minB hlb (by intro h; rw [h] at hmem; cases hmem))

theorem le_maxB_of_mem {l : List Nat} {x : Nat} (hx : x ∈ l) : x ≤ maxB l := by
  cases l with
  | nil => cases hx
  | cons b bs =>
      rcases List.mem_cons.1 hx with h | h
      · subst h; exact init_le_foldl_max bs x
      · exact mem_le_foldl_max bs b x h

theorem maxB_le {l : List Nat} {b : Nat} (h : ∀ x ∈ l, x ≤ b) (h0 : l ≠ []) :
    maxB l ≤ b := by
  cases l with
  | nil => exact absurd rfl h0
  | cons a as =>
      exact foldl_max_le as a b (h a (by simp)) (fun x hx => h x (by simp [hx]))

theorem maxB_eq {l : List Nat} {b : Nat} (hmem : b ∈ l) (hub : ∀ x ∈ l, x ≤ b) :
    maxB l = b :=
  le_antisymm (maxB_le hub (by intro h; rw [h] at hmem; cases hmem))
    (le_maxB_of_mem hmem)

theorem minB_le_maxB {l : List Nat} (h0 : l ≠ []) : minB l ≤ maxB l := by
  cases l with
  | nil => exact absurd rfl h0
  | cons a as =>
      exact le_trans (minB_le_of_mem (List.mem_cons_self a as))
        (le_maxB_of_mem (List.mem_cons_self a as))

/-! ### Helper lemmas: bucket sums -/

theorem sumAt_append (l₁ l₂ : List (DateT × ℚ)) (b : Nat) :
    sumAt (l₁ ++ l₂) b = sumAt l₁ b + sumAt l₂ b := by
  simp [sumAt, List.filter_append]

theorem sumAt_eq_zero {rows : List (DateT × ℚ)} {b : Nat}
    (h : ∀ r ∈ rows, r.1.bucket = b → r.2 = 0) : sumAt rows b = 0 := by
  apply List.sum_eq_zero
  intro x hx
  rcases List.mem_map.1 hx with ⟨r, hr, hrx⟩
  rcases List.mem_filter.1 hr with ⟨hrm, hrb⟩
  rw [← hrx]
  exact h r hrm (by simpa using hrb)

/-! ### Helper lemmas: the resampler -/

theorem bucketList_ne_nil {rows : List (DateT × ℚ)} (h : rows ≠ []) :
    bucketList rows ≠ [] := by
  cases rows with
  | nil => exact absurd rfl h
  | cons r rs => simp [bucketList]

theorem mem_bucketList {rows : List (DateT × ℚ)} {r : DateT × ℚ} (hr : r ∈ rows) :
    r.1.bucket ∈ bucketList rows :=
  List.mem_map.2 ⟨r, hr, rfl⟩

theorem resampleSum_eq (rows : List (DateT × ℚ)) (h : rows ≠ []) :
    resampleSum rows =
      (List.range (maxB (bucketList rows) + 1 - minB (bucketList rows))).map
        (fun i => (minB (bucketList rows) + i,
          sumAt rows (minB (bucketList rows) + i))) := by
  cases rows with
  | nil => exact absurd rfl h
  | cons r rs => rfl

theorem resampleSum_length (rows : List (DateT × ℚ)) (h : rows ≠ []) :
    (resampleSum rows).length =
      maxB (bucketList rows) + 1 - minB (bucketList rows) := by
  rw [resampleSum_eq rows h]; simp

theorem resampleSum_ne_nil (rows : List (DateT × ℚ)) (h : rows ≠ []) :
    resampleSum rows ≠ [] := by
  have hlo := minB_le_maxB (bucketList_ne_nil h)
  have hlen := resampleSum_length rows h
  intro hnil
  rw [hnil] at hlen
  simp at hlen
  omega

theorem resampleSum_chain (rows : List (DateT × ℚ)) :
    List.Chain' (fun a b => b.1 = a.1 + 1) (resampleSum rows) := by
  cases rows with
  | nil => simp [resampleSum]
  | cons r rs =>
      rw [resampleSum_eq (r :: rs) (by simp)]
      rw [List.chain'_iff_get]
      intro i h
      simp only [List.get_eq_getElem, List.getElem_map, List.getElem_range]
      omega

theorem resampleSum_pairwise (rows : List (DateT × ℚ)) :
    (resampleSum rows).Pairwise (fun a b => a.1 < b.1) := by
  cases rows with
  | nil => simp [resampleSum]
  | cons r rs =>
      rw [resampleSum_eq (r :: rs) (by simp)]
      refine List.Pairwise.map _ ?_ (List.pairwise_lt_range _)
      intro a b hab
      simpa using hab

theorem mem_resampleSum {rows : List (DateT × ℚ)} {p : Nat × ℚ}
    (hp : p ∈ resampleSum rows) :
    minB (bucketList rows) ≤ p.1 ∧ p.1 ≤ maxB (bucketList rows) ∧
      p.2 = sumAt rows p.1 := by
  have h0 : rows ≠ [] := by
    intro h; rw [h] at hp; simp [resampleSum] at hp
  rw [resampleSum_eq rows h0] at hp
  rcases List.mem_map.1 hp with ⟨i, hi, hip⟩
  rcases List.mem_range.1 hi with hilt
  subst hip
  refine ⟨by omega, by omega, rfl⟩

theorem resampleSum_head (rows : List (DateT × ℚ)) (h : rows ≠ []) :
    (resampleSum rows).head? =
      some (minB (bucketList rows), sumAt rows (minB (bucketList rows))) := by
  rw [resampleSum_eq rows h]
  have hlo := minB_le_maxB (bucketList_ne_nil h)
  obtain ⟨m, hm⟩ : ∃ m, maxB (bucketList rows) + 1 - minB (bucketList rows) = m + 1 :=
    ⟨maxB (bucketList rows) - minB (bucketList rows), by omega⟩
  rw [hm, List.range_succ_eq_map]
  simp

theorem resampleSum_getLast (rows : List (DateT × ℚ)) (h : rows ≠ []) :
    (resampleSum rows).getLast? =
      some (maxB (bucketList rows), sumAt rows (maxB (bucketList rows))) := by
  rw [resampleSum_eq rows h]
  have hlo := minB_le_maxB (bucketList_ne_nil h)
  obtain ⟨m, hm⟩ : ∃ m, maxB (bucketList rows) + 1 - minB (bucketList rows) = m + 1 :=
    ⟨maxB (bucketList rows) - minB (bucketList rows), by omega⟩
  have hb : minB (bucketList rows) + m = maxB (bucketList rows) := by omega
  rw [hm, List.range_succ, List.map_append]
  simp [hb]

/-! ### Helper lemmas: the prediction window -/

theorem predictRange_length (f : Nat → ℚ) (s e : Nat) :
    (predictRange f s e).length = e + 1 - s := by
  simp [predictRange]

theorem mem_predictRange {f : Nat → ℚ} {s e : Nat} {p : Nat × ℚ}
    (hp : p ∈ predictRange f s e) :
    ∃ i, i < e + 1 - s ∧ p = (s + i, f (s + i)) := by
  rcases List.mem_map.1 hp with ⟨i, hi, hip⟩
  exact ⟨i, List.mem_range.1 hi, hip.symm⟩

theorem predictRange_get (f : Nat → ℚ) (s e : Nat) (i : Nat)
    (h : i < (predictRange f s e).length) :
    (predictRange f s e).get ⟨i, h⟩ = (s + i, f (s + i)) := by
  simp [predictRange]

theorem predictRange_pairwise (f : Nat → ℚ) (s e : Nat) :
    (predictRange f s e).Pairwise (fun a b => a.1 < b.1) := by
  refine List.Pairwise.map _ ?_ (List.pairwise_lt_range _)
  intro a b hab
  simpa using hab

/-! ### Helper lemmas: method dispatch -/

theorem method_to_call_none (m : Method) (pp : Nat) (data : List (Nat × ℚ)) :
    method_to_call m none pp data = none := by
  cases m <;> rfl

theorem method_to_call_some (m : Method) (f : Nat → ℚ) (pp : Nat)
    (data : List (Nat × ℚ)) :
    method_to_call m (some f) pp data =
      some (predictRange f data.length (data.length + pp - 1)) := by
  cases m <;> rfl

/-! ### Helper lemmas: boundary rows -/

theorem mem_startRow {ds : Option DateT} {first : DateT} {r : DateT × ℚ}
    (hr : r ∈ startRow ds first) :
    r.2 = 0 ∧ ds = some r.1 ∧ DateT.lt r.1 first := by
  cases ds with
  | none => cases hr
  | some d =>
      by_cases h : DateT.lt d first
      · simp [startRow, h] at hr
        subst hr
        exact ⟨rfl, rfl, h⟩
      · simp [startRow, h] at hr

theorem mem_endRow {de : Option DateT} {last : DateT} {r : DateT × ℚ}
    (hr : r ∈ endRow de last) :
    r.2 = 0 ∧ de = some r.1 ∧ DateT.lt last r.1 := by
  cases de with
  | none => cases hr
  | some d =>
      by_cases h : DateT.lt last d
      · simp [endRow, h] at hr
        subst hr
        exact ⟨rfl, rfl, h⟩
      · simp [endRow, h] at hr

theorem withBoundaries_eq (ds de : Option DateT) (r0 : DateT × ℚ)
    (rest : List (DateT × ℚ)) :
    withBoundaries ds de (r0 :: rest) =
      ((r0 :: rest) ++ startRow ds r0.1) ++
        endRow de ((((r0 :: rest) ++ startRow ds r0.1)).getLastD r0).1 := rfl

theorem mem_withBoundaries {ds de : Option DateT} {rows : List (DateT × ℚ)}
    {r : DateT × ℚ} (hr : r ∈ withBoundaries ds de rows) :
    r ∈ rows ∨ (r.2 = 0 ∧ (ds = some r.1 ∨ de = some r.1)) := by
  cases rows with
  | nil => cases hr
  | cons r0 rest =>
      rw [withBoundaries_eq] at hr
      rcases List.mem_append.1 hr with h | h
      · rcases List.mem_append.1 h with h | h
        · exact Or.inl h
        · rcases mem_startRow h with ⟨hq, hd, _⟩
          exact Or.inr ⟨hq, Or.inl hd⟩
      · rcases mem_endRow h with ⟨hq, hd, _⟩
        exact Or.inr ⟨hq, Or.inr hd⟩

theorem subset_withBoundaries {ds de : Option DateT} {rows : List (DateT × ℚ)}
    {r : DateT × ℚ} (hr : r ∈ rows) : r ∈ withBoundaries ds de rows := by
  cases rows with
  | nil => cases hr
  | cons r0 rest =>
      rw [withBoundaries_eq]
      exact List.mem_append.2 (Or.inl (List.mem_append.2 (Or.inl hr)))

theorem withBoundaries_ne_nil {ds de : Option DateT} {rows : List (DateT × ℚ)}
    (h : rows ≠ []) : withBoundaries ds de rows ≠ [] := by
  cases rows with
  | nil => exact absurd rfl h
  | cons r0 rest =>
      rw [withBoundaries_eq]
      simp

/-! ### Helper lemmas: sorted raw input -/

theorem sorted_head_le {r0 : Nat × ℚ} {rest : List (Nat × ℚ)}
    (hs : (r0 :: rest).Pairwise (fun a b => a.1 < b.1)) {x : Nat × ℚ}
    (hx : x ∈ r0 :: rest) : r0.1 ≤ x.1 := by
  rcases List.mem_cons.1 hx with h | h
  · subst h; exact le_refl _
  · exact le_of_lt ((List.pairwise_cons.1 hs).1 x h)

theorem sorted_le_getLast {l : List (Nat × ℚ)}
    (hs : l.Pairwise (fun a b => a.1 < b.1)) {x rl : Nat × ℚ}
    (hx : x ∈ l) (hl : l.getLast? = some rl) : x.1 ≤ rl.1 := by
  induction l with
  | nil => cases hx
  | cons a l ih =>
      cases l with
      | nil =>
          simp at hl hx
          subst hl; subst hx; exact le_refl _
      | cons b l' =>
          rw [List.getLast?_cons_cons] at hl
          rcases List.mem_cons.1 hx with h | h
          · subst h
            have hbl : rl ∈ b :: l' := by
              have := List.mem_getLast?_eq_getLast (l := b :: l') hl
              rcases this with ⟨hne, hg⟩
              rw [hg]
              exact List.getLast_mem hne
            exact le_of_lt ((List.pairwise_cons.1 hs).1 rl hbl)
          · exact ih (List.pairwise_cons.1 hs).2 h hl

theorem rawRows_getLast {raw : List (Nat × ℚ)} {rl : Nat × ℚ}
    (h : raw.getLast? = some rl) {d : DateT × ℚ} :
    (rawRows raw).getLastD d = (⟨rl.1, 0⟩, rl.2) := by
  have h1 : (rawRows raw).getLast? = some (⟨rl.1, 0⟩, rl.2) := by
    unfold rawRows
    rw [List.getLast?_map]
    rw [h]
    rfl
  rw [List.getLastD_eq_getLast?, h1]
  rfl

/-! ### Helper lemmas: rounding and clamping -/

theorem roundHalfEven_nonneg {x : ℚ} (hx : 0 ≤ x) : 0 ≤ roundHalfEven x := by
  have hfl : (0 : ℤ) ≤ ⌊x⌋ := Int.floor_nonneg.2 hx
  unfold roundHalfEven
  split
  · exact hfl
  · split
    · omega
    · split
      · exact hfl
      · omega

theorem pyRound2_nonneg {v : ℚ} (hv : 0 ≤ v) : 0 ≤ pyRound2 v := by
  unfold pyRound2
  have h : (0 : ℤ) ≤ roundHalfEven (v * 100) :=
    roundHalfEven_nonneg (by positivity)
  positivity

theorem clampRound_nonneg (v : ℚ) : 0 ≤ clampRound v := by
  unfold clampRound
  split
  · split
    · exact pyRound2_nonneg (le_of_lt (by assumption))
    · exact le_refl 0
  · exact le_refl 0

theorem clampRound_eq_specClamp (v : ℚ) : clampRound v = specClamp v := by
  unfold clampRound specClamp
  rcases lt_trichotomy v 0 with h | h | h
  · rw [if_neg (by linarith), if_pos (le_of_lt h)]
  · subst h
    simp
  · rw [if_pos h, if_neg (not_le.2 h)]
    split
    · rfl
    · next heq => exact (not_not.1 heq).symm

theorem clampRound_decimals (v : ℚ) : ∃ z : ℤ, clampRound v = (z : ℚ) / 100 := by
  unfold clampRound
  split
  · split
    · exact ⟨roundHalfEven (v * 100), rfl⟩
    · exact ⟨0, by norm_num⟩
  · exact ⟨0, by norm_num⟩

/-! ### Helper lemmas: record assembly -/

theorem _calculate_data_nil (w : Wizard) (fit : Option (Nat → ℚ)) :
    _calculate_data w fit [] = none := rfl

theorem _calculate_data_eq (w : Wizard) (fit : Option (Nat → ℚ))
    (raw : List (Nat × ℚ)) (h : raw ≠ []) :
    _calculate_data w fit raw =
      some (histRecords w raw ++ foreRecords w fit raw) := by
  cases raw with
  | nil => exact absurd rfl h
  | cons r rs =>
      unfold _calculate_data histRecords foreRecords
      cases hm : method_to_call w.forecast_method fit w.predicted_periods
          (moves_table w (r :: rs)) with
      | none => simp [hm]
      | some fs => simp [hm]

theorem mem_histRecords {w : Wizard} {raw : List (Nat × ℚ)} {r : DemandRecord}
    (hr : r ∈ histRecords w raw) :
    ∃ p ∈ moves_table w raw, r = ⟨p.1, p.2, none⟩ := by
  rcases List.mem_map.1 hr with ⟨p, hp, hpr⟩
  exact ⟨p, hp, hpr.symm⟩

theorem histRecords_forecast {w : Wizard} {raw : List (Nat × ℚ)}
    {r : DemandRecord} (hr : r ∈ histRecords w raw) : r.forecast = none := by
  rcases mem_histRecords hr with ⟨p, _, hpr⟩
  rw [hpr]

theorem foreRecords_none (w : Wizard) (raw : List (Nat × ℚ)) :
    foreRecords w none raw = [] := by
  unfold foreRecords
  rw [method_to_call_none]

theorem foreRecords_some (w : Wizard) (f : Nat → ℚ) (raw : List (Nat × ℚ)) :
    foreRecords w (some f) raw =
      (predictRange f (moves_table w raw).length
          ((moves_table w raw).length + w.predicted_periods - 1)).map
        (fun pv => ⟨lowBucket w raw + pv.1, clampRound pv.2, some true⟩) := by
  unfold foreRecords
  rw [method_to_call_some]

theorem foreRecords_forecast {w : Wizard} {fit : Option (Nat → ℚ)}
    {raw : List (Nat × ℚ)} {r : DemandRecord} (hr : r ∈ foreRecords w fit raw) :
    r.forecast = some true := by
  cases fit with
  | none => rw [foreRecords_none] at hr; cases hr
  | some f =>
      rw [foreRecords_some] at hr
      rcases List.mem_map.1 hr with ⟨p, _, hpr⟩
      rw [← hpr]

theorem foreRecords_quantity {w : Wizard} {fit : Option (Nat → ℚ)}
    {raw : List (Nat × ℚ)} {r : DemandRecord} (hr : r ∈ foreRecords w fit raw) :
    ∃ v : ℚ, r.quantity = clampRound v := by
  cases fit with
  | none => rw [foreRecords_none] at hr; cases hr
  | some f =>
      rw [foreRecords_some] at hr
      rcases List.mem_map.1 hr with ⟨p, _, hpr⟩
      exact ⟨p.2, by rw [← hpr]⟩

theorem moves_table_ne_nil (w : Wizard) (raw : List (Nat × ℚ)) (h : raw ≠ []) :
    moves_table w raw ≠ [] := by
  unfold moves_table
  apply resampleSum_ne_nil
  apply withBoundaries_ne_nil
  intro hnil
  cases raw with
  | nil => exact absurd rfl h
  | cons r rs => simp [rawRows] at hnil

theorem histRecords_ne_nil (w : Wizard) (raw : List (Nat × ℚ)) (h : raw ≠ []) :
    histRecords w raw ≠ [] := by
  unfold histRecords
  simpa using moves_table_ne_nil w raw h

/-! ### Helper lemmas: sums through the boundary rows -/

theorem mem_rawRows {raw : List (Nat × ℚ)} {r : DateT × ℚ}
    (hr : r ∈ rawRows raw) : ∃ m ∈ raw, r = (⟨m.1, 0⟩, m.2) := by
  rcases List.mem_map.1 hr with ⟨m, hm, hmr⟩
  exact ⟨m, hm, hmr.symm⟩

theorem sumAt_startRow (ds : Option DateT) (x : DateT) (b : Nat) :
    sumAt (startRow ds x) b = 0 :=
  sumAt_eq_zero (fun r hr _ => (mem_startRow hr).1)

theorem sumAt_endRow (de : Option DateT) (x : DateT) (b : Nat) :
    sumAt (endRow de x) b = 0 :=
  sumAt_eq_zero (fun r hr _ => (mem_endRow hr).1)

/-- The synthetic boundary rows carry quantity 0, so they never change a
bucket's total: resampling after the boundary appends sums exactly the raw
contributions. -/
theorem sumAt_withBoundaries (ds de : Option DateT) (rows : List (DateT × ℚ))
    (b : Nat) : sumAt (withBoundaries ds de rows) b = sumAt rows b := by
  cases rows with
  | nil => rfl
  | cons r0 rest =>
      rw [withBoundaries_eq, sumAt_append, sumAt_append, sumAt_startRow,
        sumAt_endRow]
      ring

theorem moves_table_sumAt {w : Wizard} {raw : List (Nat × ℚ)} {p : Nat × ℚ}
    (hp : p ∈ moves_table w raw) : p.2 = sumAt (rawRows raw) p.1 := by
  unfold moves_table at hp
  rcases mem_resampleSum hp with ⟨_, _, hsum⟩
  rw [hsum, sumAt_withBoundaries]

theorem moves_table_zero_fill {w : Wizard} {raw : List (Nat × ℚ)} {p : Nat × ℚ}
    (hp : p ∈ moves_table w raw) (hnone : ∀ m ∈ raw, m.1 ≠ p.1) : p.2 = 0 := by
  rw [moves_table_sumAt hp]
  apply sumAt_eq_zero
  intro r hr hb
  rcases mem_rawRows hr with ⟨m, hm, hmr⟩
  exfalso
  apply hnone m hm
  rw [hmr] at hb
  exact hb

/-! ### Helper lemmas: chronological order of the assembled records -/

theorem DateT.lt_bucket_le {a b : DateT} (h : DateT.lt a b) :
    a.bucket ≤ b.bucket := by
  rcases h with h | ⟨h, _⟩
  · exact le_of_lt h
  · exact le_of_eq h

theorem histRecords_pairwise (w : Wizard) (raw : List (Nat × ℚ)) :
    (histRecords w raw).Pairwise
      (fun a b => a.date_datetime < b.date_datetime) := by
  unfold histRecords
  exact List.Pairwise.map _ (fun a b hab => hab)
    (resampleSum_pairwise (withBoundaries w.date_start w.date_end (rawRows raw)))

theorem foreRecords_pairwise (w : Wizard) (fit : Option (Nat → ℚ))
    (raw : List (Nat × ℚ)) :
    (foreRecords w fit raw).Pairwise
      (fun a b => a.date_datetime < b.date_datetime) := by
  cases fit with
  | none => rw [foreRecords_none]; exact List.Pairwise.nil
  | some f =>
      rw [foreRecords_some]
      exact List.Pairwise.map _ (fun a b hab => by simpa using hab)
        (predictRange_pairwise f _ _)

theorem histRecords_date_le {w : Wizard} {raw : List (Nat × ℚ)}
    {r : DemandRecord} (hr : r ∈ histRecords w raw) :
    r.date_datetime ≤
      maxB (bucketList (withBoundaries w.date_start w.date_end (rawRows raw))) := by
  rcases mem_histRecords hr with ⟨p, hp, hpr⟩
  unfold moves_table at hp
  rcases mem_resampleSum hp with ⟨_, hub, _⟩
  rw [hpr]
  exact hub

theorem foreRecords_date_ge {w : Wizard} {fit : Option (Nat → ℚ)}
    {raw : List (Nat × ℚ)} {r : DemandRecord} (h0 : raw ≠ [])
    (hr : r ∈ foreRecords w fit raw) :
    maxB (bucketList (withBoundaries w.date_start w.date_end (rawRows raw))) <
      r.date_datetime := by
  cases fit with
  | none => rw [foreRecords_none] at hr; cases hr
  | some f =>
      rw [foreRecords_some] at hr
      rcases List.mem_map.1 hr with ⟨p, hp, hpr⟩
      rcases mem_predictRange hp with ⟨i, _, hpi⟩
      have hrows : withBoundaries w.date_start w.date_end (rawRows raw) ≠ [] := by
        apply withBoundaries_ne_nil
        intro hnil
        cases raw with
        | nil => exact absurd rfl h0
        | cons m ms => simp [rawRows] at hnil
      have hlen : (moves_table w raw).length =
          maxB (bucketList (withBoundaries w.date_start w.date_end (rawRows raw))) + 1 -
            minB (bucketList (withBoundaries w.date_start w.date_end (rawRows raw))) :=
        resampleSum_length _ hrows
      have hlo := minB_le_maxB (bucketList_ne_nil hrows)
      rw [← hpr, hpi]
      unfold lowBucket
      simp only
      omega

theorem records_pairwise (w : Wizard) (fit : Option (Nat → ℚ))
    (raw : List (Nat × ℚ)) (h0 : raw ≠ []) :
    (histRecords w raw ++ foreRecords w fit raw).Pairwise
      (fun a b => a.date_datetime < b.date_datetime) := by
  rw [List.pairwise_append]
  refine ⟨histRecords_pairwise w raw, foreRecords_pairwise w fit raw, ?_⟩
  intro a ha b hb
  exact lt_of_le_of_lt (histRecords_date_le ha) (foreRecords_date_ge h0 hb)

/-! ### Helper lemmas: synthetic boundary buckets -/

theorem rawRows_cons (m : Nat × ℚ) (ms : List (Nat × ℚ)) :
    rawRows (m :: ms) = (⟨m.1, 0⟩, m.2) :: rawRows ms := rfl

theorem startRow_cases (ds : Option DateT) (x : DateT) :
    startRow ds x = [] ∨
      ∃ a, ds = some a ∧ DateT.lt a x ∧ startRow ds x = [(a, 0)] := by
  cases ds with
  | none => exact Or.inl rfl
  | some a =>
      by_cases h : DateT.lt a x
      · exact Or.inr ⟨a, rfl, h, by simp [startRow, h]⟩
      · exact Or.inl (by simp [startRow, h])

theorem startRow_of_lt {ds : Option DateT} {x d : DateT} (hds : ds = some d)
    (hlt : DateT.lt d x) : startRow ds x = [(d, 0)] := by
  subst hds
  simp [startRow, hlt]

theorem endRow_of_lt {de : Option DateT} {x d : DateT} (hde : de = some d)
    (hlt : DateT.lt x d) : endRow de x = [(d, 0)] := by
  subst hde
  simp [endRow, hlt]

/-- When `date_start` is set and strictly precedes the first raw bucket, the
synthetic start row makes `date_start`'s bucket the first bucket of the
resampling grid. -/
theorem minB_withBoundaries_start {ds de : Option DateT} {r0 : Nat × ℚ}
    {rest : List (Nat × ℚ)}
    (hsort : (r0 :: rest).Pairwise (fun a b => a.1 < b.1)) {d : DateT}
    (hds : ds = some d) (hd : d.bucket < r0.1)
    (hcons : ∀ b, de = some b → DateT.lt d b) :
    minB (bucketList (withBoundaries ds de (rawRows (r0 :: rest)))) = d.bucket := by
  have hstart : startRow ds (⟨r0.1, 0⟩ : DateT) = [(d, 0)] :=
    startRow_of_lt hds (Or.inl hd)
  apply minB_eq
  · -- the synthetic start row is in the extended rows
    apply mem_bucketList (r := ((d : DateT), (0 : ℚ)))
    rw [rawRows_cons, withBoundaries_eq]
    apply List.mem_append.2
    left
    apply List.mem_append.2
    right
    show ((d : DateT), (0 : ℚ)) ∈ startRow ds (⟨r0.1, 0⟩ : DateT)
    rw [hstart]
    exact List.mem_singleton.2 rfl
  · -- every extended row's bucket is at least date_start's bucket
    intro x hx
    rcases List.mem_map.1 hx with ⟨r, hr, hrx⟩
    rcases mem_withBoundaries hr with hraw | ⟨_, hsyn | hsyn⟩
    · rcases mem_rawRows hraw with ⟨m, hm, hmr⟩
      have := sorted_head_le hsort hm
      rw [← hrx, hmr]
      simp only
      omega
    · rw [hds] at hsyn
      have : d = r.1 := Option.some.inj hsyn
      rw [← hrx, ← this]
    · have := DateT.lt_bucket_le (hcons r.1 hsyn)
      rw [← hrx]
      exact this

/-- With the hypotheses of `minB_withBoundaries_start`, the quantity summed
into `date_start`'s bucket is 0: no raw bucket reaches it. -/
theorem sumAt_start_zero {ds de : Option DateT} {r0 : Nat × ℚ}
    {rest : List (Nat × ℚ)}
    (hsort : (r0 :: rest).Pairwise (fun a b => a.1 < b.1)) {d : DateT}
    (hd : d.bucket < r0.1) :
    sumAt (withBoundaries ds de (rawRows (r0 :: rest))) d.bucket = 0 := by
  rw [sumAt_withBoundaries]
  apply sumAt_eq_zero
  intro r hr hb
  rcases mem_rawRows hr with ⟨m, hm, hmr⟩
  exfalso
  have := sorted_head_le hsort hm
  rw [hmr] at hb
  simp only at hb
  omega

/-- When `date_end` is set and the last raw bucket's start strictly precedes
it, the rows after the boundary appends contain a row dated `date_end`, and
`date_end`'s bucket is the last bucket of the resampling grid. -/
theorem maxB_withBoundaries_end {ds de : Option DateT} {r0 : Nat × ℚ}
    {rest : List (Nat × ℚ)}
    (hsort : (r0 :: rest).Pairwise (fun a b => a.1 < b.1)) {d : DateT}
    {rl : Nat × ℚ} (hde : de = some d) (hlast : (r0 :: rest).getLast? = some rl)
    (hlt : DateT.lt ⟨rl.1, 0⟩ d)
    (hub : ∀ m ∈ (r0 :: rest), m.1 ≤ d.bucket)
    (hcons : ∀ a, ds = some a → DateT.lt a d) :
    maxB (bucketList (withBoundaries ds de (rawRows (r0 :: rest)))) = d.bucket := by
  have hend : endRow de ((((⟨r0.1, 0⟩, r0.2) :: rawRows rest) ++
      startRow ds (⟨r0.1, 0⟩ : DateT)).getLastD (⟨r0.1, 0⟩, r0.2)).1 = [(d, 0)] := by
    rcases startRow_cases ds (⟨r0.1, 0⟩ : DateT) with hc | ⟨a, hdsa, _, hc⟩
    · rw [hc, List.append_nil, ← rawRows_cons, rawRows_getLast hlast]
      exact endRow_of_lt hde hlt
    · rw [hc, List.getLastD_concat]
      exact endRow_of_lt hde (hcons a hdsa)
  apply maxB_eq
  · apply mem_bucketList (r := ((d : DateT), (0 : ℚ)))
    rw [rawRows_cons, withBoundaries_eq]
    apply List.mem_append.2
    right
    show ((d : DateT), (0 : ℚ)) ∈ endRow de ((((⟨r0.1, 0⟩, r0.2) :: rawRows rest) ++
      startRow ds (⟨r0.1, 0⟩ : DateT)).getLastD (⟨r0.1, 0⟩, r0.2)).1
    rw [hend]
    exact List.mem_singleton.2 rfl
  · intro x hx
    rcases List.mem_map.1 hx with ⟨r, hr, hrx⟩
    rcases mem_withBoundaries hr with hraw | ⟨_, hsyn | hsyn⟩
    · rcases mem_rawRows hraw with ⟨m, hm, hmr⟩
      have := hub m hm
      rw [← hrx, hmr]
      simp only
      omega
    · have := DateT.lt_bucket_le (hcons r.1 hsyn)
      rw [← hrx]
      exact this
    · rw [hde] at hsyn
      have : d = r.1 := Option.some.inj hsyn
      rw [← hrx, ← this]

/-- With the hypotheses of `maxB_withBoundaries_end` and the last raw bucket
strictly before `date_end`'s bucket, the quantity summed into `date_end`'s
bucket is 0. -/
theorem sumAt_end_zero {ds de : Option DateT} {r0 : Nat × ℚ}
    {rest : List (Nat × ℚ)}
    (hsort : (r0 :: rest).Pairwise (fun a b => a.1 < b.1)) {d : DateT}
    {rl : Nat × ℚ} (hlast : (r0 :: rest).getLast? = some rl)
    (hstrict : rl.1 < d.bucket) :
    sumAt (withBoundaries ds de (rawRows (r0 :: rest))) d.bucket = 0 := by
  rw [sumAt_withBoundaries]
  apply sumAt_eq_zero
  intro r hr hb
  rcases mem_rawRows hr with ⟨m, hm, hmr⟩
  exfalso
  have := sorted_le_getLast hsort hm hlast
  rw [hmr] at hb
  simp only at hb
  omega

/-! ### Helper lemmas: the caller's falsy check -/

theorem records_ne_nil (w : Wizard) (fit : Option (Nat → ℚ))
    (raw : List (Nat × ℚ)) (h0 : raw ≠ []) :
    histRecords w raw ++ foreRecords w fit raw ≠ [] := by
  intro h
  rcases List.append_eq_nil.1 h with ⟨h1, _⟩
  exact histRecords_ne_nil w raw h0 h1

theorem action_calculate_report (w : Wizard) (fit : Option (Nat → ℚ))
    (raw : List (Nat × ℚ)) (h0 : raw ≠ []) :
    action_calculate w fit raw =
      CalcResult.report (histRecords w raw ++ foreRecords w fit raw) := by
  unfold action_calculate
  rw [_calculate_data_eq w fit raw h0]
  show (if histRecords w raw ++ foreRecords w fit raw = [] then
      CalcResult.notification
    else CalcResult.report (histRecords w raw ++ foreRecords w fit raw)) = _
  rw [if_neg (records_ne_nil w fit raw h0)]

/-! ## The claims -/

/-- **C1** (corrected; counterexample): the claim states that `_hwes_method`,
when it does not return the unavailable sentinel, returns exactly 1 forecast
point regardless of the requested `predicted_periods`.  It is false: with
`predicted_periods = 3` and a successful fit, `_hwes_method` returns 3
forecast points, not 1. -/
theorem c1_counterexample :
    (_hwes_method constFit 3 demoData).map List.length = some 3 ∧
      (_hwes_method constFit 3 demoData).map List.length ≠ some 1 := by
  have h3 : (_hwes_method constFit 3 demoData).map List.length = some 3 := rfl
  refine ⟨h3, ?_⟩
  intro h1
  rw [h3] at h1
  exact absurd (Option.some.inj h1) (by decide)

/-- **C1** (amended): `_hwes_method` and `_ses_method`, when they do not
return the unavailable sentinel, return exactly `predicted_periods` forecast
points like every other method; the exactly-one-point behaviour holds only
because the request layer (`_onchange_forecast_method`) pins
`predicted_periods` to 1 whenever HWES or SES is selected, in which case both
methods indeed return exactly 1 point. -/
theorem c1_theorem (f : Nat → ℚ) (pp cfg : Nat) (data : List (Nat × ℚ))
    (hpp : 1 ≤ pp) :
    (_hwes_method (some f) pp data).map List.length = some pp ∧
    (_ses_method (some f) pp data).map List.length = some pp ∧
    onchange_forecast_method Method.hwes cfg = 1 ∧
    onchange_forecast_method Method.ses cfg = 1 ∧
    (_hwes_method (some f) (onchange_forecast_method Method.hwes cfg)
        data).map List.length = some 1 ∧
    (_ses_method (some f) (onchange_forecast_method Method.ses cfg)
        data).map List.length = some 1 := by
  have hlen : ∀ q : Nat, 1 ≤ q →
      (predictRange f data.length (data.length + q - 1)).length = q := by
    intro q hq
    rw [predictRange_length]
    omega
  refine ⟨?_, ?_, rfl, rfl, ?_, ?_⟩
  · show some (predictRange f data.length (data.length + pp - 1)).length = some pp
    rw [hlen pp hpp]
  · show some (predictRange f data.length (data.length + pp - 1)).length = some pp
    rw [hlen pp hpp]
  · show some (predictRange f data.length (data.length + 1 - 1)).length = some 1
    rw [hlen 1 (le_refl 1)]
  · show some (predictRange f data.length (data.length + 1 - 1)).length = some 1
    rw [hlen 1 (le_refl 1)]

/-- Witness for C1's amended theorem at a concrete input. -/
theorem c1_witness :
    (1 ≤ 3) ∧ (_hwes_method (some constF) 3 demoData).map List.length = some 3 :=
  ⟨by decide, (c1_theorem constF 3 5 demoData (by decide)).1⟩

/-- **C2** (corrected; counterexample): the claim states that `_ses_method`
(as one of HWES/SES) produces exactly 1 point when it does not return the
sentinel.  It is false: with `predicted_periods = 3` and a successful fit,
`_ses_method` returns 3 forecast points. -/
theorem c2_counterexample :
    (_ses_method constFit 3 demoData).map List.length = some 3 ∧
      (_ses_method constFit 3 demoData).map List.length ≠ some 1 := by
  have h3 : (_ses_method constFit 3 demoData).map List.length = some 3 := rfl
  refine ⟨h3, ?_⟩
  intro h1
  rw [h3] at h1
  exact absurd (Option.some.inj h1) (by decide)

/-- **C2** (amended): for every forecast method (HWES and SES not excepted),
whenever the method does not return the unavailable sentinel and
`predicted_periods ≥ 1`, the returned forecast has exactly
`predicted_periods` points and those points occupy the integer positions
`n` through `n + predicted_periods - 1`, where `n` is the length of the
normalized input series. -/
theorem c2_theorem (m : Method) (fit : Option (Nat → ℚ)) (pp : Nat)
    (data : List (Nat × ℚ)) (out : List (Nat × ℚ)) (hpp : 1 ≤ pp)
    (hout : method_to_call m fit pp data = some out) :
    out.length = pp ∧
      ∀ i (h : i < out.length), (out.get ⟨i, h⟩).1 = data.length + i := by
  cases fit with
  | none => rw [method_to_call_none] at hout; cases hout
  | some f =>
      rw [method_to_call_some] at hout
      have hout' : out = predictRange f data.length (data.length + pp - 1) :=
        (Option.some.inj hout).symm
      subst hout'
      constructor
      · rw [predictRange_length]
        omega
      · intro i h
        rw [predictRange_get]

/-- Witness for C2's amended theorem at a concrete input. -/
theorem c2_witness :
    (method_to_call Method.ar constFit 2 demoData =
        some (predictRange constF 2 3)) ∧
      (predictRange constF 2 3).length = 2 :=
  ⟨rfl, (c2_theorem Method.ar constFit 2 demoData (predictRange constF 2 3)
    (by decide) rfl).1⟩

/-- **C3** (confirmed): `_calculate_data` returns the NoData signal (Python
`False`, here `none`) if and only if the raw grouped-bucket input is empty;
on empty input the result does not depend on the selected method or on the
fit outcome (no forecast method is invoked); and `action_calculate` shows the
not-enough-data notification exactly when the raw input is empty. -/
theorem c3_theorem (w : Wizard) (fit : Option (Nat → ℚ))
    (raw : List (Nat × ℚ)) :
    (_calculate_data w fit raw = none ↔ raw = []) ∧
    (raw = [] → ∀ w' : Wizard, ∀ fit' : Option (Nat → ℚ),
      _calculate_data w fit raw = _calculate_data w' fit' raw) ∧
    (raw ≠ [] → _calculate_data w fit raw =
      some (histRecords w raw ++ foreRecords w fit raw)) ∧
    (action_calculate w fit raw = CalcResult.notification ↔ raw = []) := by
  refine ⟨⟨?_, ?_⟩, ?_, _calculate_data_eq w fit raw, ?_, ?_⟩
  · intro h
    by_contra h0
    rw [_calculate_data_eq w fit raw h0] at h
    cases h
  · intro h
    subst h
    rfl
  · intro h w' fit'
    subst h
    rfl
  · intro hact
    by_contra h0
    rw [action_calculate_report w fit raw h0] at hact
    cases hact
  · intro h
    subst h
    rfl

/-- Witness for C3 at concrete inputs: empty raw input signals NoData and
notifies; the non-empty scenario input does not signal NoData. -/
theorem c3_witness :
    (_calculate_data wScenario constFit [] = none) ∧
      (_calculate_data wScenario constFit rawScenario ≠ none) ∧
      action_calculate wScenario constFit [] = CalcResult.notification := by
  refine ⟨(c3_theorem wScenario constFit []).1.mpr rfl, ?_,
    (c3_theorem wScenario constFit []).2.2.2.mpr rfl⟩
  intro h
  have := (c3_theorem wScenario constFit rawScenario).1.mp h
  simp [rawScenario] at this

/-- **C4** (confirmed): every forecast method converts a fit/predict
exception (`fit = none`) into the unavailable sentinel instead of
propagating it, and `_calculate_data` then returns exactly the historical
records, none of which carries a forecast flag.  The warning log written by
the `except` branch is a side effect outside the data model. -/
theorem c4_theorem (w : Wizard) (raw : List (Nat × ℚ)) (h0 : raw ≠ []) :
    (∀ m : Method, ∀ pp : Nat, ∀ data : List (Nat × ℚ),
      method_to_call m none pp data = none) ∧
    _calculate_data w none raw = some (histRecords w raw) ∧
    (∀ r ∈ histRecords w raw, r.forecast = none) := by
  refine ⟨method_to_call_none, ?_, fun r hr => histRecords_forecast hr⟩
  rw [_calculate_data_eq w none raw h0, foreRecords_none, List.append_nil]

/-- Witness for C4 at a concrete input. -/
theorem c4_witness :
    rawScenario ≠ [] ∧
      _calculate_data wScenario none rawScenario =
        some (histRecords wScenario rawScenario) :=
  ⟨by simp [rawScenario], (c4_theorem wScenario rawScenario (by simp [rawScenario])).2.1⟩

/-- **C5** (confirmed): the source's forecast-quantity expression equals the
spec's clamp-and-round description (clamp to 0 when non-positive, round to 2
decimals otherwise), and every forecast-flagged record of `_calculate_data`'s
output has quantity ≥ 0 expressible with denominator 100 (at most 2 decimal
digits). -/
theorem c5_theorem (w : Wizard) (fit : Option (Nat → ℚ))
    (raw : List (Nat × ℚ)) (l : List DemandRecord)
    (hl : _calculate_data w fit raw = some l) :
    (∀ v : ℚ, clampRound v = specClamp v) ∧
    ∀ r ∈ l, r.forecast = some true →
      0 ≤ r.quantity ∧ ∃ z : ℤ, r.quantity = (z : ℚ) / 100 := by
  refine ⟨clampRound_eq_specClamp, ?_⟩
  intro r hr _
  have h0 : raw ≠ [] := by
    intro h
    subst h
    cases hl
  rw [_calculate_data_eq w fit raw h0] at hl
  have hl' : l = histRecords w raw ++ foreRecords w fit raw :=
    (Option.some.inj hl).symm
  subst hl'
  rcases List.mem_append.1 hr with h | h
  · rcases mem_histRecords h with ⟨p, _, hpr⟩
    subst hpr
    rename_i hflag
    cases hflag
  · rcases foreRecords_quantity h with ⟨v, hv⟩
    rw [hv]
    exact ⟨clampRound_nonneg v, clampRound_decimals v⟩

/-- Witness for C5: the scenario run produces the concrete record list
`demandScenario`, and its forecast-flagged record at date 3 satisfies the
clamp/round bounds. -/
theorem c5_witness :
    _calculate_data wScenario constFit rawScenario = some demandScenario ∧
      (0 ≤ ((⟨3, 157/100, some true⟩ : DemandRecord)).quantity ∧
        ∃ z : ℤ,
          ((⟨3, 157/100, some true⟩ : DemandRecord)).quantity = (z : ℚ) / 100) := by
  have hcalc : _calculate_data wScenario constFit rawScenario = some demandScenario := by
    norm_num [_calculate_data, moves_table, wScenario, rawScenario, resampleSum,
      withBoundaries, startRow, endRow, rawRows, bucketList, minB, maxB, sumAt,
      DateT.lt, List.range_succ, lowBucket, method_to_call, _ar_method,
      predictRange, constFit, constF, clampRound, pyRound2, roundHalfEven,
      demandScenario]
  refine ⟨hcalc, ?_⟩
  exact (c5_theorem wScenario constFit rawScenario demandScenario hcalc).2
    ⟨3, 157/100, some true⟩ (by simp [demandScenario]) rfl

/-- **C6** (confirmed): for every raw input, the normalized historical series
has bucket indices strictly ascending and contiguous (each bucket is the
predecessor plus one: no gaps, no duplicates), every bucket with no raw
contribution carries quantity 0; and the spec's concrete scenario — raw
buckets `[(2024-01-01, 5), (2024-01-03, 7)]` with day interval and
boundaries 2024-01-01/2024-01-03, i.e. buckets `[(0, 5), (2, 7)]` —
normalizes to `[(0, 5), (1, 0), (2, 7)]`. -/
theorem c6_theorem (w : Wizard) (raw : List (Nat × ℚ)) :
    List.Chain' (fun a b => b.1 = a.1 + 1) (moves_table w raw) ∧
    (moves_table w raw).Pairwise (fun a b => a.1 < b.1) ∧
    (∀ p ∈ moves_table w raw, (∀ m ∈ raw, m.1 ≠ p.1) → p.2 = 0) ∧
    moves_table wScenario rawScenario = [(0, 5), (1, 0), (2, 7)] := by
  refine ⟨resampleSum_chain _, resampleSum_pairwise _,
    fun p hp hm => moves_table_zero_fill hp hm, ?_⟩
  norm_num [moves_table, wScenario, rawScenario, resampleSum, withBoundaries,
    startRow, endRow, rawRows, bucketList, minB, maxB, sumAt, DateT.lt,
    List.range_succ]

/-- Witness for C6: the spec's scenario evaluated through the theorem. -/
theorem c6_witness : moves_table wScenario rawScenario = [(0, 5), (1, 0), (2, 7)] :=
  (c6_theorem wScenario rawScenario).2.2.2

/-- **C7** (confirmed): with a sorted raw input bounded by `date_end` (the
extractor filters on it) and the check constraint `date_start < date_end`:
if `date_start` is set and strictly precedes the first raw bucket, the
normalized series starts with a zero bucket at `date_start`'s bucket; if
`date_end` is set and the last raw bucket's start is strictly earlier, the
normalized series ends at `date_end`'s bucket — with quantity 0 when the last
raw bucket is strictly before that bucket, and with the raw sum (no duplicate
synthetic bucket) when the last raw bucket already sits in it; and the
normalized buckets are strictly ascending (duplicate-free) throughout. -/
theorem c7_theorem (w : Wizard) (raw : List (Nat × ℚ)) (r0 rl : Nat × ℚ)
    (hhead : raw.head? = some r0) (hlast : raw.getLast? = some rl)
    (hsort : raw.Pairwise (fun a b => a.1 < b.1))
    (hub : ∀ d, w.date_end = some d → ∀ m ∈ raw, m.1 ≤ d.bucket)
    (hcons : ∀ a b, w.date_start = some a → w.date_end = some b → DateT.lt a b) :
    (∀ d, w.date_start = some d → d.bucket < r0.1 →
      (moves_table w raw).head? = some (d.bucket, 0)) ∧
    (∀ d, w.date_end = some d → DateT.lt ⟨rl.1, 0⟩ d →
      (rl.1 < d.bucket → (moves_table w raw).getLast? = some (d.bucket, 0)) ∧
      (rl.1 = d.bucket →
        (moves_table w raw).getLast? =
          some (d.bucket, sumAt (rawRows raw) d.bucket))) ∧
    (moves_table w raw).Pairwise (fun a b => a.1 < b.1) := by
  cases raw with
  | nil => cases hhead
  | cons a rest =>
      have ha : a = r0 := Option.some.inj hhead
      subst ha
      have hrows : withBoundaries w.date_start w.date_end (rawRows (a :: rest)) ≠ [] :=
        withBoundaries_ne_nil (by rw [rawRows_cons]; simp)
      refine ⟨?_, ?_, resampleSum_pairwise _⟩
      · intro d hds hd
        unfold moves_table
        rw [resampleSum_head _ hrows,
          minB_withBoundaries_start hsort hds hd
            (fun b hb => hcons d b hds hb),
          sumAt_start_zero hsort hd]
      · intro d hde hlt
        have hmax := maxB_withBoundaries_end hsort hde hlast hlt
          (hub d hde) (fun a' ha' => hcons a' d ha' hde)
        constructor
        · intro hstrict
          unfold moves_table
          rw [resampleSum_getLast _ hrows, hmax,
            sumAt_end_zero hsort hlast hstrict]
        · intro heq
          unfold moves_table
          rw [resampleSum_getLast _ hrows, hmax, sumAt_withBoundaries]

/-- Witness for C7: raw input `[(2, 5)]` with `date_start` in bucket 0 and
`date_end` inside bucket 4 normalizes to a grid starting with a zero bucket
at 0 and ending with a zero bucket at 4. -/
theorem c7_witness :
    (moves_table wBoundary rawBoundary).head? = some (0, 0) ∧
      (moves_table wBoundary rawBoundary).getLast? = some (4, 0) := by
  have hub : ∀ d, wBoundary.date_end = some d → ∀ m ∈ rawBoundary, m.1 ≤ d.bucket := by
    intro d hd m hm
    have hd' : (⟨4, 1⟩ : DateT) = d := Option.some.inj hd
    cases hd'
    have hm' : m = (2, 5) := by simpa [rawBoundary] using hm
    subst hm'
    decide
  have hcons : ∀ a b, wBoundary.date_start = some a → wBoundary.date_end = some b →
      DateT.lt a b := by
    intro a b haa hbb
    have ha' : (⟨0, 0⟩ : DateT) = a := Option.some.inj haa
    have hb' : (⟨4, 1⟩ : DateT) = b := Option.some.inj hbb
    cases ha'
    cases hb'
    decide
  have h := c7_theorem wBoundary rawBoundary (2, 5) (2, 5) rfl rfl
    (by simp [rawBoundary]) hub hcons
  exact ⟨h.1 ⟨0, 0⟩ rfl (by decide), (h.2.1 ⟨4, 1⟩ rfl (by decide)).1 (by decide)⟩

/-- **C8** (confirmed): for every successful run (non-empty raw input), the
record list of `_calculate_data` is the historical records followed by the
forecast records, each forecast record flagged, and the whole list is in
strictly ascending chronological order. -/
theorem c8_theorem (w : Wizard) (fit : Option (Nat → ℚ))
    (raw : List (Nat × ℚ)) (h0 : raw ≠ []) :
    _calculate_data w fit raw =
      some (histRecords w raw ++ foreRecords w fit raw) ∧
    (∀ r ∈ histRecords w raw, r.forecast = none) ∧
    (∀ r ∈ foreRecords w fit raw, r.forecast = some true) ∧
    (histRecords w raw ++ foreRecords w fit raw).Pairwise
      (fun a b => a.date_datetime < b.date_datetime) :=
  ⟨_calculate_data_eq w fit raw h0,
   fun r hr => histRecords_forecast hr,
   fun r hr => foreRecords_forecast hr,
   records_pairwise w fit raw h0⟩

/-- Witness for C8 at the concrete scenario run. -/
theorem c8_witness :
    rawScenario ≠ [] ∧
      (histRecords wScenario rawScenario ++
          foreRecords wScenario constFit rawScenario).Pairwise
        (fun a b => a.date_datetime < b.date_datetime) :=
  ⟨by simp [rawScenario],
   (c8_theorem wScenario constFit rawScenario (by simp [rawScenario])).2.2.2⟩

/-- **C9** (confirmed): historical records omit the forecast key entirely
(`none`, never `some false`), forecast records carry `forecast = True`, and
the consumers' truthiness test `move.get("forecast")` distinguishes exactly
the two kinds. -/
theorem c9_theorem (w : Wizard) (fit : Option (Nat → ℚ))
    (raw : List (Nat × ℚ)) (h0 : raw ≠ []) :
    _calculate_data w fit raw =
      some (histRecords w raw ++ foreRecords w fit raw) ∧
    (∀ r ∈ histRecords w raw, r.forecast = none ∧ isForecastTruthy r = false) ∧
    (∀ r ∈ foreRecords w fit raw, r.forecast = some true ∧
      isForecastTruthy r = true) ∧
    (∀ r ∈ histRecords w raw ++ foreRecords w fit raw,
      r.forecast ≠ some false) := by
  refine ⟨_calculate_data_eq w fit raw h0, ?_, ?_, ?_⟩
  · intro r hr
    have h := histRecords_forecast hr
    exact ⟨h, by unfold isForecastTruthy; rw [h]⟩
  · intro r hr
    have h := foreRecords_forecast hr
    exact ⟨h, by unfold isForecastTruthy; rw [h]⟩
  · intro r hr
    rcases List.mem_append.1 hr with h | h
    · rw [histRecords_forecast h]
      intro hc
      cases hc
    · rw [foreRecords_forecast h]
      intro hc
      exact Bool.noConfusion (Option.some.inj hc)

/-- Witness for C9 at the concrete scenario run. -/
theorem c9_witness :
    rawScenario ≠ [] ∧
      ∀ r ∈ histRecords wScenario rawScenario,
        r.forecast = none ∧ isForecastTruthy r = false :=
  ⟨by simp [rawScenario],
   (c9_theorem wScenario constFit rawScenario (by simp [rawScenario])).2.1⟩

/-- **C10** (confirmed): for every non-empty raw input `_calculate_data`
returns a non-empty record list (at least one historical record), so the
falsy check of the callers triggers the no-data notification exactly when
the raw input is empty and never on a successful history-only result. -/
theorem c10_theorem (w : Wizard) (fit : Option (Nat → ℚ))
    (raw : List (Nat × ℚ)) (h0 : raw ≠ []) :
    _calculate_data w fit raw =
      some (histRecords w raw ++ foreRecords w fit raw) ∧
    histRecords w raw ++ foreRecords w fit raw ≠ [] ∧
    action_calculate w fit raw =
      CalcResult.report (histRecords w raw ++ foreRecords w fit raw) ∧
    action_calculate w fit raw ≠ CalcResult.notification := by
  refine ⟨_calculate_data_eq w fit raw h0, records_ne_nil w fit raw h0,
    action_calculate_report w fit raw h0, ?_⟩
  rw [action_calculate_report w fit raw h0]
  intro h
  cases h

/-- Witness for C10: the history-only run (failed fit) on the scenario input
does not notify. -/
theorem c10_witness :
    rawScenario ≠ [] ∧
      action_calculate wScenario none rawScenario ≠ CalcResult.notification :=
  ⟨by simp [rawScenario],
   (c10_theorem wScenario none rawScenario (by simp [rawScenario])).2.2.2⟩

end StockSeries
